import Mathlib

/-!
Shallow embedding of the scraping core of the repository
(fbref_scraper.py, who_scored_scraper.py, sofifa_scraper.py,
scrape_player_urls.py), together with proofs settling the claims about
challenge classification, retry backoff, pagination termination, stall
detection, header processing, deduplicated persistence and the CSV sinks.
Strings processed character-wise are modelled as `List Char`; record keys
and values that are only compared for equality are modelled as `String`.
-/

/-- Boolean test that `pat` occurs at the start of `l`. -/
def leadsWith : List Char → List Char → Bool
  | [], _ => true
  | _ :: _, [] => false
  | a :: as, b :: bs => a = b && leadsWith as bs

/-- Boolean test that `pat` occurs as a contiguous substring of `l`
(Python `pat in l` on strings). -/
def containsSub (pat : List Char) : List Char → Bool
  | [] => leadsWith pat []
  | b :: bs => leadsWith pat (b :: bs) || containsSub pat bs

/-- The fixed fingerprint list of `_is_cloudflare_challenge`
(who_scored_scraper.py lines 448-455). -/
def cloudflareMarkers : List (List Char) :=
  ["Checking your browser".toList, "Just a moment".toList,
   "cf-browser-verification".toList, "challenge-platform".toList]

/-- Model of `_is_cloudflare_challenge(content)`: true iff any marker occurs in
the content (who_scored_scraper.py; the same four-substring check appears
inline in sofifa_scraper.py lines 124-135). -/
def is_cloudflare_challenge (content : List Char) : Bool :=
  cloudflareMarkers.any (fun m => containsSub m content)

/-- Backoff delay before retry `n` (n starting at 1) in
sofifa_scraper.py line 107 and scrape_player_urls.py line 94:
`delay = (2 ** retries) + random.uniform(1, 5)`, the random draw passed
explicitly. -/
def retryDelay (n : ℕ) (jitter : ℚ) : ℚ := 2 ^ n + jitter

/-- The values `random.uniform(1, 5)` can return. -/
def validJitter (j : ℚ) : Prop := 1 ≤ j ∧ j ≤ 5

/-- Whitespace characters of Python `str.strip()` / regex `\s`
(ASCII range). -/
def pySpace (c : Char) : Bool :=
  c = ' ' || c = '\t' || c = '\n' || c = '\r' || c = '\x0b' || c = '\x0c'

/-- Python `str.strip` family: drop the maximal run of `P`-characters from
both ends. -/
def pyStrip (P : Char → Bool) (l : List Char) : List Char :=
  (((l.dropWhile P).reverse.dropWhile P)).reverse

/-- A pandas column label: either a flat string or a tuple of level texts
(multi-index). -/
inductive ColLabel where
  | flat (s : List Char)
  | multi (levels : List (List Char))

/-- Model of `_flatten_headers` (fbref_scraper.py lines 136-163), per column label:
a tuple is flattened as `" ".join([str(c).strip() for c in col if c])`
(levels filtered by non-emptiness before stripping), a flat label becomes
`str(col).strip()`. -/
def flattenLabel : ColLabel → List Char
  | .flat s => pyStrip pySpace s
  | .multi levels =>
      List.intercalate [' ']
        (((levels.filter (fun c => c ≠ [])).map (pyStrip pySpace)))

/-- Model of `_dedupe_headers` (who_scored_scraper.py lines 88-98) with the `seen`
counter dictionary made explicit as an association list. -/
def dedupe_headers_aux (seen : List (List Char × ℕ)) :
    List (List Char) → List (List Char)
  | [] => []
  | h :: t =>
    match seen.find? (fun p => p.1 = h) with
    | none => h :: dedupe_headers_aux ((h, 1) :: seen) t
    | some p =>
        (h ++ '_' :: (Nat.repr (p.2 + 1)).toList) ::
          dedupe_headers_aux
            (seen.map (fun q => if q.1 = h then (q.1, p.2 + 1) else q)) t

/-- Full `_dedupe_headers(headers)`: starts from an empty `seen` dictionary. -/
def dedupe_headers (hs : List (List Char)) : List (List Char) :=
  dedupe_headers_aux [] hs

/-- The duplicate-removal loop of `save_urls_to_csv`
(scrape_player_urls.py lines 179-184): keep the first occurrence of each
url, preserving order; `seen` is the set built so far. -/
def uniquePreservingOrder (seen : List String) : List String → List String
  | [] => []
  | u :: t =>
    if u ∈ seen then uniquePreservingOrder seen t
    else u :: uniquePreservingOrder (u :: seen) t

/-- Model of `save_urls_to_csv` (scrape_player_urls.py lines 176-192): the rows the
call leaves in the destination file. The file is opened with mode `w`,
so its content after the call is exactly the header row followed by the
deduplicated urls. -/
def save_urls_to_csv (all_player_urls : List String) : List String :=
  "player_url" :: uniquePreservingOrder [] all_player_urls

/-- The paging information `_scrape_tab` reads each iteration
(who_scored_scraper.py lines 251-275). -/
structure PageInfo where
  current : ℕ
  total : ℕ
  hasNext : Bool

/-- What one iteration of the `_scrape_tab` loop observes on the page:
the paging info and the number of extracted table rows. -/
structure TabObservation where
  info : PageInfo
  rowCount : ℕ

/-- Why the `_scrape_tab` pagination loop stopped. -/
inductive StopReason where
  | noRows
  | maxPages
  | noNext
  | fuelOut
deriving DecidableEq, Repr

/-- The `while True` pagination loop of `_scrape_tab`
(who_scored_scraper.py lines 250-382), driven by the per-iteration
observations `obs`. Python truthiness of `self.max_pages` makes
`Some 0` behave like `None`. Returns the number of loop iterations run
(= pages fetched) and the stop reason; `fuel` bounds the unrolling. -/
def scrapeTabLoop (max_pages : Option ℕ) (obs : ℕ → TabObservation) :
    ℕ → ℕ → ℕ → ℕ × StopReason
  | 0, i, _ => (i, .fuelOut)
  | fuel + 1, i, _cur =>
    let o := obs i
    let current := o.info.current
    if o.rowCount = 0 then (i + 1, .noRows)
    else if (match max_pages with
             | some m => decide (m ≠ 0) && decide (m ≤ current)
             | none => false) then (i + 1, .maxPages)
    else if o.info.hasNext = false then (i + 1, .noNext)
    else scrapeTabLoop max_pages obs fuel (i + 1) current

/-- The error `page.wait_for_function` raises when its predicate stays
false for the whole timeout window (`_click_next`,
who_scored_scraper.py lines 401-415). -/
inductive StallTimeout where
  | timeout
deriving DecidableEq, Repr

/-- The predicate polled by `_click_next`'s `wait_for_function`: one read
of the paging text, `none` when the paging element or the
`Page X / Y` match is missing (then the wait succeeds immediately),
`some n` the parsed current page; the wait requires `n !== current`. -/
def pageChanged (current : ℕ) : Option ℕ → Bool
  | none => true
  | some n => decide (n ≠ current)

/-- Model of the `wait_for_function` polling in `_click_next`: `reads` are the cursor
reads taken inside the timeout window; the wait returns at the first
read whose page number changed and raises a timeout error when none
does. -/
def wait_for_page_change (current : ℕ) :
    List (Option ℕ) → Except StallTimeout Unit
  | [] => .error .timeout
  | r :: rs =>
    if pageChanged current r then .ok () else wait_for_page_change current rs

/-- Outcome of one attempt of the per-player body of
`scrape_player_stats` (sofifa_scraper.py lines 103-152): `ok` when stats
with a name were extracted and saved, `fail` for every path that
increments `retries` (persistent challenge, empty extraction, any
exception — the `except Exception` arm catches them all). -/
inductive AttemptResult where
  | ok
  | fail
deriving DecidableEq, Repr

/-- The `while retries < max_retries and not success` loop
(sofifa_scraper.py lines 103-152): `allowance` is
`max_retries - retries`, `made` the number of attempts already made;
returns whether the player succeeded and the total number of attempts. -/
def retryLoopAux (attempt : ℕ → AttemptResult) : ℕ → ℕ → Bool × ℕ
  | 0, made => (false, made)
  | allowance + 1, made =>
    match attempt made with
    | .ok => (true, made + 1)
    | .fail => retryLoopAux attempt allowance (made + 1)

/-- The retry loop for one player url, started with `retries = 0`. -/
def scrape_one_player (attempt : ℕ → AttemptResult) (max_retries : ℕ) :
    Bool × ℕ :=
  retryLoopAux attempt max_retries 0

/-- The `for idx, url in enumerate(urls_to_scrape, 1)` loop of
`scrape_player_stats` (sofifa_scraper.py lines 98-155): every url gets
its own retry loop; the loop body catches every exception, so the loop
always reaches the next url. Returns, per url in order, whether it
succeeded and how many attempts were made. -/
def scrape_player_stats (oracle : String → ℕ → AttemptResult)
    (max_retries : ℕ) (urls : List String) : List (String × Bool × ℕ) :=
  urls.map (fun u => (u, scrape_one_player (oracle u) max_retries))

/-- Lexicographic comparison of strings by code points, the order of
Python `sorted` on `str`. -/
def strLeChars : List Char → List Char → Bool
  | [], _ => true
  | _ :: _, [] => false
  | a :: as, b :: bs =>
    if a = b then strLeChars as bs else decide (a.toNat < b.toNat)

/-- Comparison `strLeChars` on the characters of two strings. -/
def strLe (a b : String) : Bool := strLeChars a.toList b.toList

/-- Insert into a `strLe`-sorted list of strings. -/
def insertSorted (x : String) : List String → List String
  | [] => [x]
  | y :: ys => if strLe x y then x :: y :: ys else y :: insertSorted x ys

/-- Insertion sort on strings, modelling Python `sorted`. -/
def sortStrings : List String → List String
  | [] => []
  | x :: xs => insertSorted x (sortStrings xs)

/-- The `priority_cols` list of `SoFIFAScraper._get_column_order`
(sofifa_scraper.py lines 161-185). -/
def priority_cols : List String :=
  ["player_id", "version", "name", "full_name", "description", "image",
   "height_cm", "weight_kg", "dob", "positions", "overall_rating", "potential",
   "value", "wage", "preferred_foot", "weak_foot", "skill_moves",
   "international_reputation", "body_type", "real_face",
   "release_clause", "specialities", "club_id", "club_name", "club_league_id",
   "club_league_name", "club_logo", "club_rating", "club_position",
   "club_kit_number", "club_joined", "club_contract_valid_until",
   "country_id", "country_name", "country_league_id", "country_league_name",
   "country_flag", "country_rating", "country_position", "country_kit_number",
   "attacking_crossing", "attacking_finishing", "attacking_heading_accuracy",
   "attacking_short_passing", "attacking_volleys",
   "skill_dribbling", "skill_curve", "skill_fk_accuracy", "skill_long_passing",
   "skill_ball_control",
   "movement_acceleration", "movement_sprint_speed", "movement_agility",
   "movement_reactions", "movement_balance",
   "power_shot_power", "power_jumping", "power_stamina", "power_strength",
   "power_long_shots",
   "mentality_aggression", "mentality_interceptions", "mentality_att_positioning",
   "mentality_vision", "mentality_penalties", "mentality_composure",
   "defending_defensive_awareness", "defending_standing_tackle", "defending_sliding_tackle",
   "goalkeeping_gk_diving", "goalkeeping_gk_handling", "goalkeeping_gk_kicking",
   "goalkeeping_gk_positioning", "goalkeeping_gk_reflexes",
   "play_styles", "url"]

/-- A record as produced by the player scraper: ordered field/value pairs
with pairwise distinct keys (a Python dict). -/
abbrev Rec := List (String × String)

/-- The keys of a record. -/
def recKeys (r : Rec) : List String := r.map Prod.fst

/-- Model of `SoFIFAScraper._get_column_order(stats_dict)`
(sofifa_scraper.py lines 159-191): the priority columns that occur in the
record, in priority order, followed by the remaining keys sorted
lexicographically. -/
def get_column_order (stats : Rec) : List String :=
  let all_keys := recKeys stats
  let other_cols := sortStrings (all_keys.filter (fun k => decide (k ∉ priority_cols)))
  (priority_cols.filter (fun c => decide (c ∈ all_keys))) ++ other_cols

/-- The row `csv.DictWriter` renders for a record that conforms to the
fieldnames: one value per column, the empty string (the default
`restval`) for a column the record lacks. -/
def renderRow (fieldnames : List String) (record : Rec) : List String :=
  fieldnames.map (fun c =>
    match record.find? (fun p => p.1 = c) with
    | some p => p.2
    | none => "")

/-- Model of `csv.DictWriter.writerow` with the default `extrasaction` of
`raise`: an error when the record holds a key outside the fieldnames,
otherwise the rendered row. -/
def writerow (fieldnames : List String) (record : Rec) :
    Except String (List String) :=
  if record.any (fun p => decide (p.1 ∉ fieldnames)) then
    .error "dict contains fields not in fieldnames"
  else .ok (renderRow fieldnames record)

/-- The sink state of `SoFIFAScraper` relevant to `save_player_to_csv`:
the `csv_initialized` flag, the cached column order, and the destination
file content (`none`: no file on disk). -/
structure CsvSinkState where
  csv_initialized : Bool
  columns : Option (List String)
  file : Option (List (List String))
deriving DecidableEq, Repr

/-- Model of `SoFIFAScraper.save_player_to_csv(stats)`
(sofifa_scraper.py lines 193-217). `file_exists` is
`os.path.isfile(output) and self.csv_initialized`; the columns are fixed
from the first record; the file is opened with mode `w` (truncating) on
the first write of the run and mode `a` afterwards; the header is
written only when `file_exists` is false; then `writerow` runs (its
error, if any, is reported next to the state the file is left in).
`effectiveCols` is the column list the call to `save_player_to_csv`
uses: the cached one, or on the first call the order computed from the
first record. -/
def effectiveCols (st : CsvSinkState) (stats : Rec) : List String :=
  match st.columns with
  | none => get_column_order stats
  | some c => c

/-- The body of `SoFIFAScraper.save_player_to_csv(stats)`; see
`effectiveCols`. -/
def save_player_to_csv (st : CsvSinkState) (stats : Rec) :
    CsvSinkState × Except String Unit :=
  let file_exists := st.file.isSome && st.csv_initialized
  let cols := effectiveCols st stats
  let contentBefore : List (List String) :=
    if st.csv_initialized then st.file.getD [] else []
  let afterHeader :=
    if file_exists then contentBefore else contentBefore ++ [cols]
  match writerow cols stats with
  | .error e => (⟨true, some cols, some afterHeader⟩, .error e)
  | .ok row => (⟨true, some cols, some (afterHeader ++ [row])⟩, .ok ())

/-- A whole run of the sink over a record sequence, from a fresh scraper
(`csv_initialized = False`, `columns = None`) against a destination that
may pre-exist; errors of individual writes are discarded here (in the
source they are caught by the per-player retry loop). -/
def runSink (f0 : Option (List (List String))) (records : List Rec) :
    CsvSinkState :=
  records.foldl (fun st r => (save_player_to_csv st r).1) ⟨false, none, f0⟩

/-- The schema a run of the sofifa sink uses for every row it writes:
fixed from the first record. -/
def runSchema (records : List Rec) : Option (List String) :=
  (runSink none records).columns

/-- The `base_columns` of `WhoScoredScraper._write_csv`
(who_scored_scraper.py lines 422-432). -/
def base_columns : List String :=
  ["source_url", "tab", "page", "player_name", "player_url",
   "team_name", "team_url", "player_age", "player_positions"]

/-- Model of the `WhoScoredScraper._write_csv` column computation
(who_scored_scraper.py lines 433-438): the union of the base columns and
every row's keys; the extra columns sorted lexicographically and
appended after the base columns. -/
def write_csv_columns (rows : List Rec) : List String :=
  let all_keys := (base_columns ++ rows.flatMap recKeys).dedup
  base_columns ++ sortStrings (all_keys.filter (fun k => decide (k ∉ base_columns)))

/-- Lowercase ASCII letter or digit: the class `[a-z0-9]`. -/
def isLowerAlnum (c : Char) : Bool :=
  (97 ≤ c.toNat && c.toNat ≤ 122) || (48 ≤ c.toNat && c.toNat ≤ 57)

/-- Uppercase ASCII letter. -/
def isUpperAlpha (c : Char) : Bool :=
  65 ≤ c.toNat && c.toNat ≤ 90

/-- Python `str.lower`, restricted to the ASCII case mapping. -/
def asciiLower (c : Char) : Char :=
  if isUpperAlpha c then Char.ofNat (c.toNat + 32) else c

/-- The class `[%/]`. -/
def isPctSlash (c : Char) : Bool := c = '%' || c = '/'

/-- The class `[^a-z0-9\s]`. -/
def nonAlnumNonSpace (c : Char) : Bool := !(isLowerAlnum c) && !(pySpace c)

/-- Helper for `re.sub` over a character class: replace every maximal run of
`P`-characters with the single character `c`; `inRun` records whether
the previous character was part of a run. -/
def squashAux (P : Char → Bool) (c : Char) : Bool → List Char → List Char
  | _, [] => []
  | inRun, x :: xs =>
    if P x then
      if inRun then squashAux P c true xs else c :: squashAux P c true xs
    else x :: squashAux P c false xs

/-- Model of `re.sub` over a character class: replace each maximal run of `P`-characters by
the one character `c`. -/
def squashRuns (P : Char → Bool) (c : Char) (l : List Char) : List Char :=
  squashAux P c false l

/-- Model of `_normalize_header` (who_scored_scraper.py lines 80-85):
`header.strip().lower()`, then `re.sub(r"[%/]+", " ", ·)`, then
`re.sub(r"[^a-z0-9\s]+", " ", ·)`, then `re.sub(r"\s+", "_", ·)`, then
`.strip("_")`. -/
def normalize_header (l : List Char) : List Char :=
  let s1 := pyStrip pySpace l
  let s2 := s1.map asciiLower
  let s3 := squashRuns isPctSlash ' ' s2
  let s4 := squashRuns nonAlnumNonSpace ' ' s3
  let s5 := squashRuns pySpace '_' s4
  pyStrip (fun c => c = '_') s5

theorem leadsWith_nil_iff (pat : List Char) : leadsWith pat [] = true ↔ pat = [] := by
  cases pat <;> simp [leadsWith]

/-- C9: Challenge classification is membership of a fixed set of fingerprint
substrings: a snapshot whose content contains the substring
"Just a moment" classifies as Challenge (`true`), and a snapshot containing
none of the fingerprints classifies as Clear (`false`). -/
theorem C9_challenge_classification (content : List Char) :
    (containsSub "Just a moment".toList content = true →
        is_cloudflare_challenge content = true) ∧
    ((∀ m ∈ cloudflareMarkers, containsSub m content = false) →
        is_cloudflare_challenge content = false) := by
  constructor
  · intro h
    have hm : "Just a moment".toList ∈ cloudflareMarkers := by decide
    exact List.any_eq_true.mpr ⟨_, hm, h⟩
  · intro h
    simp only [is_cloudflare_challenge, List.any_eq_false]
    intro m hm
    simp [h m hm]

/-- C9 witness: a content containing the "Just a moment" fingerprint is a
Challenge; a content containing no fingerprint is Clear. -/
theorem C9_witness :
    is_cloudflare_challenge "xx Just a moment yy".toList = true ∧
    is_cloudflare_challenge "all clear here".toList = false :=
  ⟨(C9_challenge_classification "xx Just a moment yy".toList).1 (by decide),
   (C9_challenge_classification "all clear here".toList).2 (by decide)⟩

/-- C5 counterexample: the code's retry delay is `2 ** retries` plus a
`random.uniform(1, 5)` draw; there is no jitter-bound parameter, and no
admissible draw makes the delay before the first retry equal 2 — the claimed
"exactly 2, 4, 8, ..." delays for `jitterMax = 0` are unattainable. -/
theorem C5_counterexample :
    ¬ ∃ j : ℚ, validJitter j ∧ retryDelay 1 j = 2 := by
  rintro ⟨j, ⟨h1, _⟩, hd⟩
  rw [retryDelay] at hd
  norm_num at hd
  rw [hd] at h1
  norm_num at h1

/-- C5 amended: the backoff delay before retry `n` is
`2 * 2^(n-1) + jitter` (so base 2) with the jitter drawn uniformly from
`[1, 5]` rather than from `[0, jitterMax]`; the jitter-free components
`2, 4, 8, ...` are strictly increasing, and the whole delay lies in
`[2^n + 1, 2^n + 5]`. -/
theorem C5_backoff_amended (n : ℕ) (j : ℚ) (hn : 1 ≤ n) (hj : validJitter j) :
    retryDelay n j = 2 * 2 ^ (n - 1) + j ∧
    2 ^ n + 1 ≤ retryDelay n j ∧
    retryDelay n j ≤ 2 ^ n + 5 ∧
    (2 : ℚ) ^ n < 2 ^ (n + 1) := by
  obtain ⟨h1, h5⟩ := hj
  have hpow : 2 * (2 : ℚ) ^ (n - 1) = 2 ^ n := by
    rw [← pow_succ']
    congr 1
    omega
  refine ⟨by rw [retryDelay, hpow], ?_, ?_, ?_⟩
  · rw [retryDelay]; linarith
  · rw [retryDelay]; linarith
  · have h2 : (1 : ℚ) < 2 := one_lt_two
    exact pow_lt_pow_right₀ h2 (Nat.lt_succ_self n)

/-- C5 amended witness: before retry 1 with the minimal jitter draw the
delay is `2 * 2^0 + 1 = 3`, bounded by `[2^1 + 1, 2^1 + 5]`. -/
theorem C5_backoff_amended_witness :
    retryDelay 1 1 = 2 * 2 ^ 0 + 1 ∧
    2 ^ 1 + 1 ≤ retryDelay 1 1 ∧
    retryDelay 1 1 ≤ 2 ^ 1 + 5 ∧
    (2 : ℚ) ^ 1 < 2 ^ 2 :=
  C5_backoff_amended 1 1 (le_refl 1) ⟨le_refl 1, by norm_num⟩

theorem mem_uniquePreservingOrder (x : String) :
    ∀ (l seen : List String),
      x ∈ uniquePreservingOrder seen l ↔ x ∈ l ∧ x ∉ seen := by
  intro l
  induction l with
  | nil => intro seen; simp [uniquePreservingOrder]
  | cons u t ih =>
    intro seen
    by_cases hu : u ∈ seen
    · rw [uniquePreservingOrder, if_pos hu, ih seen]
      constructor
      · rintro ⟨hx, hs⟩
        exact ⟨List.mem_cons_of_mem u hx, hs⟩
      · rintro ⟨hx, hs⟩
        rcases List.mem_cons.mp hx with rfl | hx
        · exact absurd hu hs
        · exact ⟨hx, hs⟩
    · rw [uniquePreservingOrder, if_neg hu]
      constructor
      · intro hx
        rcases List.mem_cons.mp hx with rfl | hx
        · exact ⟨List.mem_cons_self x t, hu⟩
        · obtain ⟨ht, hs⟩ := (ih (u :: seen)).mp hx
          refine ⟨List.mem_cons_of_mem u ht, fun hc => hs (List.mem_cons_of_mem u hc)⟩
      · rintro ⟨hx, hs⟩
        rcases List.mem_cons.mp hx with rfl | hx
        · exact List.mem_cons_self x _
        · by_cases hxu : x = u
          · subst hxu; exact List.mem_cons_self x _
          · refine List.mem_cons_of_mem u ((ih (u :: seen)).mpr ⟨hx, ?_⟩)
            intro hc
            rcases List.mem_cons.mp hc with h | h
            · exact hxu h
            · exact hs h

theorem uniquePreservingOrder_nodup :
    ∀ (l seen : List String), (uniquePreservingOrder seen l).Nodup := by
  intro l
  induction l with
  | nil => intro seen; simp [uniquePreservingOrder]
  | cons u t ih =>
    intro seen
    by_cases hu : u ∈ seen
    · rw [uniquePreservingOrder, if_pos hu]; exact ih seen
    · rw [uniquePreservingOrder, if_neg hu]
      refine List.nodup_cons.mpr ⟨?_, ih (u :: seen)⟩
      intro hc
      exact ((mem_uniquePreservingOrder u t (u :: seen)).mp hc).2 (List.mem_cons_self u seen)

theorem uniquePreservingOrder_sublist :
    ∀ (l seen : List String), List.Sublist (uniquePreservingOrder seen l) l := by
  intro l
  induction l with
  | nil => intro seen; simp [uniquePreservingOrder]
  | cons u t ih =>
    intro seen
    by_cases hu : u ∈ seen
    · rw [uniquePreservingOrder, if_pos hu]
      exact (ih seen).cons u
    · rw [uniquePreservingOrder, if_neg hu]
      exact (ih (u :: seen)).cons₂ u

/-- C6: with the dedup pass of `save_urls_to_csv` the persisted output never
contains two records sharing the dedup key (the player url): the record rows
(everything after the header row) are pairwise distinct, form a subsequence
of the collected urls (first occurrences, in order), and contain exactly the
collected urls. Every run, including a re-run over the same target list,
rewrites the whole file through this function, so the property holds after
any pair of runs. -/
theorem C6_idempotent_persistence (urls : List String) :
    (save_urls_to_csv urls).tail.Nodup ∧
    List.Sublist ((save_urls_to_csv urls).tail) urls ∧
    (∀ u, u ∈ (save_urls_to_csv urls).tail ↔ u ∈ urls) := by
  refine ⟨uniquePreservingOrder_nodup urls [], uniquePreservingOrder_sublist urls [], ?_⟩
  intro u
  rw [save_urls_to_csv, List.tail_cons, mem_uniquePreservingOrder]
  simp

/-- C7 counterexample: a flat header that carries surrounding whitespace does
not pass through `_flatten_headers` unchanged — the code strips it. -/
theorem C7_counterexample :
    flattenLabel (.flat " Age ".toList) ≠ " Age ".toList := by decide

/-- C7 amended: a multi-level header is flattened by joining the levels that
are non-empty (tested before stripping), each stripped of surrounding
whitespace, with single spaces (("Standard","Gls") ↦ "Standard Gls"); a flat
header is stripped of surrounding whitespace and is otherwise unchanged
(so "Age" stays "Age"); a repeated header gets a running index suffixed on
the repeats ("Gls","Gls" ↦ "Gls","Gls_2"). -/
theorem C7_header_flatten_amended (s : List Char)
    (h1 : s.dropWhile pySpace = s)
    (h2 : (s.reverse.dropWhile pySpace).reverse = s) :
    flattenLabel (.flat s) = s ∧
    flattenLabel (.multi ["Standard".toList, "Gls".toList]) = "Standard Gls".toList ∧
    flattenLabel (.flat "Age".toList) = "Age".toList ∧
    dedupe_headers ["Gls".toList, "Gls".toList] = ["Gls".toList, "Gls_2".toList] ∧
    dedupe_headers ["Gls".toList, "Gls".toList, "Gls".toList] =
      ["Gls".toList, "Gls_2".toList, "Gls_3".toList] := by
  refine ⟨?_, by decide, by decide, by decide, by decide⟩
  show pyStrip pySpace s = s
  rw [pyStrip, h1, h2]

/-- C7 amended witness: the flat header "Age" (no surrounding whitespace)
together with the flatten and dedupe examples. -/
theorem C7_header_flatten_amended_witness :
    flattenLabel (.flat "Age".toList) = "Age".toList ∧
    flattenLabel (.multi ["Standard".toList, "Gls".toList]) = "Standard Gls".toList ∧
    flattenLabel (.flat "Age".toList) = "Age".toList ∧
    dedupe_headers ["Gls".toList, "Gls".toList] = ["Gls".toList, "Gls_2".toList] ∧
    dedupe_headers ["Gls".toList, "Gls".toList, "Gls".toList] =
      ["Gls".toList, "Gls_2".toList, "Gls_3".toList] :=
  C7_header_flatten_amended "Age".toList (by decide) (by decide)

/-- One non-stopping step of the `_scrape_tab` loop: rows were extracted,
no max-page ceiling applies, and the continuation signal is present. -/
theorem scrapeTabLoop_step (obs : ℕ → TabObservation) (fuel i cur : ℕ)
    (hr : (obs i).rowCount ≠ 0) (hn : (obs i).info.hasNext = true) :
    scrapeTabLoop none obs (fuel + 1) i cur =
      scrapeTabLoop none obs fuel (i + 1) (obs i).info.current := by
  simp only [scrapeTabLoop]
  simp [hr, hn]

/-- C3: the `_scrape_tab` pagination loop checks its stop conditions in the
order (1) zero extracted rows, (2) max-page ceiling, (3) no continuation
signal: zero rows stop the loop whatever the other signals say; with rows
present a reached ceiling stops it whatever the continuation signal says;
with rows present and no ceiling reached a missing continuation signal
stops it; and when the continuation signal is always true but the 4th
page's extraction returns zero rows, the loop stops after exactly 4
iterations — no 5th fetch is attempted. -/
theorem C3_pagination_termination :
    (∀ (mp : Option ℕ) (obs : ℕ → TabObservation) (fuel i cur : ℕ),
        (obs i).rowCount = 0 →
        scrapeTabLoop mp obs (fuel + 1) i cur = (i + 1, .noRows)) ∧
    (∀ (m : ℕ) (obs : ℕ → TabObservation) (fuel i cur : ℕ),
        m ≠ 0 → (obs i).rowCount ≠ 0 → m ≤ (obs i).info.current →
        scrapeTabLoop (some m) obs (fuel + 1) i cur = (i + 1, .maxPages)) ∧
    (∀ (mp : Option ℕ) (obs : ℕ → TabObservation) (fuel i cur : ℕ),
        (obs i).rowCount ≠ 0 →
        (∀ m, mp = some m → m = 0 ∨ (obs i).info.current < m) →
        (obs i).info.hasNext = false →
        scrapeTabLoop mp obs (fuel + 1) i cur = (i + 1, .noNext)) ∧
    (∀ (obs : ℕ → TabObservation) (fuel : ℕ),
        (∀ i, (obs i).info.hasNext = true) →
        (∀ i, i < 3 → (obs i).rowCount ≠ 0) →
        (obs 3).rowCount = 0 →
        4 ≤ fuel →
        scrapeTabLoop none obs fuel 0 1 = (4, .noRows)) := by
  refine ⟨?_, ?_, ?_, ?_⟩
  · intro mp obs fuel i cur h
    simp only [scrapeTabLoop]
    simp [h]
  · intro m obs fuel i cur hm hr hle
    simp only [scrapeTabLoop]
    simp [hr, hm, hle]
  · intro mp obs fuel i cur hr hm hn
    simp only [scrapeTabLoop]
    cases mp with
    | none => simp [hr, hn]
    | some m =>
      rcases hm m rfl with h0 | hlt
      · subst h0; simp [hr, hn]
      · simp [hr, hn, Nat.not_le.mpr hlt]
  · intro obs fuel hNext hRows hZero hfuel
    obtain ⟨k, rfl⟩ : ∃ k, fuel = k + 4 := ⟨fuel - 4, by omega⟩
    rw [show k + 4 = (k + 3) + 1 from rfl,
        scrapeTabLoop_step obs (k + 3) 0 1 (hRows 0 (by omega)) (hNext 0),
        show k + 3 = (k + 2) + 1 from rfl,
        scrapeTabLoop_step obs (k + 2) 1 _ (hRows 1 (by omega)) (hNext 1),
        show k + 2 = (k + 1) + 1 from rfl,
        scrapeTabLoop_step obs (k + 1) 2 _ (hRows 2 (by omega)) (hNext 2),
        show k + 1 = k + 1 from rfl]
    simp only [scrapeTabLoop]
    simp [hZero]

/-- A page sequence whose continuation signal is always true but whose 4th
page extracts zero rows. -/
def alwaysNextObs : ℕ → TabObservation := fun i =>
  if i < 3 then ⟨⟨i + 1, 5, true⟩, 10⟩ else ⟨⟨4, 5, true⟩, 0⟩

/-- C3 witness: on `alwaysNextObs` the loop runs exactly 4 iterations and
stops with the zero-rows reason; and zero rows stop a single step even with
a live continuation signal and no ceiling. -/
theorem C3_pagination_termination_witness :
    scrapeTabLoop none alwaysNextObs 10 0 1 = (4, .noRows) ∧
    scrapeTabLoop (some 2) alwaysNextObs 7 3 4 = (4, .noRows) :=
  ⟨C3_pagination_termination.2.2.2 alwaysNextObs 10
      (fun i => by unfold alwaysNextObs; split <;> rfl)
      (fun i hi => by
        unfold alwaysNextObs
        rw [if_pos hi]
        exact Nat.succ_ne_zero 9)
      (by rfl) (by omega),
   C3_pagination_termination.1 (some 2) alwaysNextObs 6 3 4 (by rfl)⟩

/-- C4: after requesting cursor advancement, `_click_next` polls the
re-read cursor, requiring the current page number to differ from the one
before the advancement request; when every read inside the timeout window
still shows the old page number it raises the timeout (stall) error
instead of looping forever, and it succeeds exactly when some read shows a
changed page number (a missing paging element or unparsable text counts
as changed). -/
theorem C4_stall_detection :
    (∀ (current : ℕ) (reads : List (Option ℕ)),
        (∀ r ∈ reads, r = some current) →
        wait_for_page_change current reads = .error .timeout) ∧
    (∀ (current : ℕ) (reads : List (Option ℕ)),
        wait_for_page_change current reads = .ok () ↔
          ∃ r ∈ reads, pageChanged current r = true) := by
  constructor
  · intro current reads h
    induction reads with
    | nil => rfl
    | cons r rs ih =>
      rw [wait_for_page_change]
      have hr : r = some current := h r (List.mem_cons_self r rs)
      subst hr
      rw [if_neg (by simp [pageChanged])]
      exact ih (fun x hx => h x (List.mem_cons_of_mem _ hx))
  · intro current reads
    induction reads with
    | nil => simp [wait_for_page_change]
    | cons r rs ih =>
      rw [wait_for_page_change]
      by_cases hr : pageChanged current r = true
      · simp [hr]
      · rw [if_neg hr, ih]
        constructor
        · rintro ⟨x, hx, hpx⟩
          exact ⟨x, List.mem_cons_of_mem _ hx, hpx⟩
        · rintro ⟨x, hx, hpx⟩
          rcases List.mem_cons.mp hx with rfl | hx
          · exact absurd hpx hr
          · exact ⟨x, hx, hpx⟩

/-- C4 witness: a cursor stuck at page 2 for every read inside the window
yields the stall error; a window in which some read shows page 3 succeeds. -/
theorem C4_stall_detection_witness :
    wait_for_page_change 2 [some 2, some 2, some 2] = .error .timeout ∧
    wait_for_page_change 2 [some 2, some 3] = .ok () :=
  ⟨C4_stall_detection.1 2 [some 2, some 2, some 2] (by decide),
   (C4_stall_detection.2 2 [some 2, some 3]).mpr ⟨some 3, by decide, by decide⟩⟩

/-- An always-failing retry loop makes exactly `allowance` further
attempts. -/
theorem retryLoopAux_all_fail (attempt : ℕ → AttemptResult)
    (hfail : ∀ n, attempt n = .fail) :
    ∀ allowance made, retryLoopAux attempt allowance made = (false, made + allowance) := by
  intro allowance
  induction allowance with
  | zero => intro made; rfl
  | succ a ih =>
    intro made
    rw [retryLoopAux, hfail made, ih (made + 1)]
    have h : made + 1 + a = made + (a + 1) := by omega
    rw [h]

/-- C8: a target whose wrapped operation fails on every attempt exhausts its
retry loop after exactly `max_retries` attempts and ends failed; the engine
still processes every queued url in order (the run never aborts because a
single target exhausted its retries), and the failed target's entry appears
in the run's results. -/
theorem C8_retry_exhaustion (oracle : String → ℕ → AttemptResult)
    (max_retries : ℕ) (urls : List String) (u : String)
    (hu : u ∈ urls) (hfail : ∀ n, oracle u n = .fail) :
    scrape_one_player (oracle u) max_retries = (false, max_retries) ∧
    (scrape_player_stats oracle max_retries urls).map Prod.fst = urls ∧
    (u, false, max_retries) ∈ scrape_player_stats oracle max_retries urls := by
  have h1 : scrape_one_player (oracle u) max_retries = (false, max_retries) := by
    rw [scrape_one_player, retryLoopAux_all_fail (oracle u) hfail max_retries 0,
      Nat.zero_add]
  refine ⟨h1, ?_, ?_⟩
  · rw [scrape_player_stats, List.map_map]
    exact List.map_id urls
  · rw [scrape_player_stats]
    exact List.mem_map.mpr ⟨u, hu, by rw [h1]⟩

/-- C8 witness: with a two-url queue whose first url fails every attempt
under a 3-attempt policy, the first target ends failed after exactly 3
attempts while the run still covers both urls. -/
theorem C8_retry_exhaustion_witness :
    scrape_one_player ((fun _ _ => .fail : String → ℕ → AttemptResult) "a") 3 = (false, 3) ∧
    (scrape_player_stats (fun _ _ => .fail) 3 ["a", "b"]).map Prod.fst = ["a", "b"] ∧
    ("a", false, 3) ∈ scrape_player_stats (fun _ _ => .fail) 3 ["a", "b"] :=
  C8_retry_exhaustion (fun _ _ => .fail) 3 ["a", "b"] "a" (by decide) (fun _ => rfl)

theorem mem_insertSorted (x y : String) (l : List String) :
    x ∈ insertSorted y l ↔ x = y ∨ x ∈ l := by
  induction l with
  | nil => simp [insertSorted]
  | cons z zs ih =>
    rw [insertSorted]
    by_cases h : strLe y z = true
    · simp [h]
    · rw [if_neg h]
      simp only [List.mem_cons, ih]
      tauto

theorem mem_sortStrings (x : String) (l : List String) :
    x ∈ sortStrings l ↔ x ∈ l := by
  induction l with
  | nil => simp [sortStrings]
  | cons y ys ih =>
    rw [sortStrings, mem_insertSorted]
    simp [ih]

theorem mem_get_column_order (r : Rec) (k : String) :
    k ∈ get_column_order r ↔ k ∈ recKeys r := by
  rw [get_column_order]
  simp only [List.mem_append, List.mem_filter, mem_sortStrings, decide_eq_true_eq]
  constructor
  · rintro (⟨_, hk⟩ | ⟨hk, _⟩) <;> exact hk
  · intro hk
    by_cases hp : k ∈ priority_cols
    · exact Or.inl ⟨hp, hk⟩
    · exact Or.inr ⟨hk, hp⟩

theorem writerow_ok (cols : List String) (rec : Rec)
    (h : ∀ p ∈ rec, p.1 ∈ cols) :
    writerow cols rec = .ok (renderRow cols rec) := by
  rw [writerow, if_neg]
  simp only [List.any_eq_true, decide_eq_true_eq, not_exists, not_and, not_not]
  intro p hp
  exact h p hp

theorem writerow_error (cols : List String) (rec : Rec)
    (h : ∃ p ∈ rec, p.1 ∉ cols) :
    writerow cols rec = .error "dict contains fields not in fieldnames" := by
  rw [writerow, if_pos]
  simp only [List.any_eq_true, decide_eq_true_eq]
  exact h

theorem save_cols_eq (st : CsvSinkState) (rec : Rec) :
    (save_player_to_csv st rec).1.columns = some (effectiveCols st rec) := by
  rw [save_player_to_csv]
  cases h : writerow (effectiveCols st rec) rec <;> simp [h]

theorem foldl_columns_stable (c : List String) :
    ∀ (rs : List Rec) (st : CsvSinkState), st.columns = some c →
      (rs.foldl (fun s r => (save_player_to_csv s r).1) st).columns = some c := by
  intro rs
  induction rs with
  | nil => intro st h; exact h
  | cons r rs ih =>
    intro st h
    rw [List.foldl_cons]
    apply ih
    rw [save_cols_eq]
    simp [effectiveCols, h]

theorem runSink_columns (f0 : Option (List (List String))) (r : Rec) (rs : List Rec) :
    (runSink f0 (r :: rs)).columns = some (get_column_order r) := by
  rw [runSink, List.foldl_cons]
  apply foldl_columns_stable
  rw [save_cols_eq]
  simp [effectiveCols]

/-- C1 counterexample: with schema fixed as `["a","b"]` by the first record,
a later record carrying the new key `"c"` does not get `"c"` appended to the
schema — the write raises `csv.DictWriter`'s error (default
`extrasaction='raise'`) and the schema stays `["a","b"]`. -/
theorem C1_counterexample :
    (runSink none [[("a", "1"), ("b", "2")], [("a", "1"), ("b", "2"), ("c", "3")]]).columns
        = some ["a", "b"] ∧
    (save_player_to_csv (runSink none [[("a", "1"), ("b", "2")]])
        [("a", "1"), ("b", "2"), ("c", "3")]).2
        = .error "dict contains fields not in fieldnames" ∧
    (["a", "b"] : List String) ≠ ["a", "b", "c"] := by
  refine ⟨by decide, by rfl, by decide⟩

/-- C1 amended: the schema is fixed from the first record's keys
(priority-ordered known fields first, then the remaining keys in
lexicographic order) and never changes for the rest of the run; a later
record whose key is not in the schema is not appended — the write raises
the DictWriter error while the schema stays fixed; a record missing a
schema column is written with the empty string in that column. In the
WhoScored sink the columns are instead computed once at the end of the run
as the base columns plus the lexicographically sorted union of all extra
keys (not appended in first-occurrence order). -/
theorem C1_schema_stability_amended :
    (∀ (r : Rec) (k : String), k ∈ get_column_order r ↔ k ∈ recKeys r) ∧
    (∀ (f0 : Option (List (List String))) (r : Rec) (rs : List Rec),
        (runSink f0 (r :: rs)).columns = some (get_column_order r)) ∧
    (∀ (st : CsvSinkState) (rec : Rec),
        (∃ p ∈ rec, p.1 ∉ effectiveCols st rec) →
        (save_player_to_csv st rec).2 = .error "dict contains fields not in fieldnames" ∧
        (save_player_to_csv st rec).1.columns = some (effectiveCols st rec)) ∧
    (∀ (cols : List String) (rec : Rec) (i : ℕ) (c : String),
        (∀ p ∈ rec, p.1 ∈ cols) →
        cols[i]? = some c → c ∉ recKeys rec →
        writerow cols rec = .ok (renderRow cols rec) ∧
        (renderRow cols rec)[i]? = some "") ∧
    (runSink none [[("a", "1"), ("b", "2")], [("a", "3")]] =
      ⟨true, some ["a", "b"], some [["a", "b"], ["1", "2"], ["3", ""]]⟩) ∧
    (write_csv_columns [[("source_url", "u"), ("z_extra", "1")], [("a_extra", "2")]] =
      base_columns ++ ["a_extra", "z_extra"]) := by
  refine ⟨mem_get_column_order, runSink_columns, ?_, ?_, by decide, by decide⟩
  · intro st rec h
    have hw := writerow_error (effectiveCols st rec) rec h
    constructor
    · simp [save_player_to_csv, hw]
    · exact save_cols_eq st rec
  · intro cols rec i c hsub hc hn
    refine ⟨writerow_ok cols rec hsub, ?_⟩
    rw [renderRow, List.getElem?_map, hc]
    have hfind : rec.find? (fun p => p.1 = c) = none := by
      rw [List.find?_eq_none]
      intro p hp
      simp only [decide_eq_true_eq]
      intro hpc
      exact hn (List.mem_map.mpr ⟨p, hp, hpc⟩)
    simp [hfind]

/-- C1 amended witness: the run over `{a,b}` then `{a}` (second record
missing column `b`), the raised error for a record with the new key `c`
against the fixed schema `["a","b"]`, and the empty string rendered at the
missing column. -/
theorem C1_schema_stability_amended_witness :
    ("a" ∈ get_column_order [("a", "1"), ("b", "2")] ↔
        "a" ∈ recKeys [("a", "1"), ("b", "2")]) ∧
    ((save_player_to_csv ⟨true, some ["a", "b"], some [["a", "b"], ["1", "2"]]⟩
        [("a", "1"), ("b", "2"), ("c", "3")]).2 =
      .error "dict contains fields not in fieldnames") ∧
    (writerow ["a", "b"] [("a", "3")] = .ok (renderRow ["a", "b"] [("a", "3")]) ∧
      (renderRow ["a", "b"] [("a", "3")])[1]? = some "") :=
  ⟨C1_schema_stability_amended.1 [("a", "1"), ("b", "2")] "a",
   (C1_schema_stability_amended.2.2.1
      ⟨true, some ["a", "b"], some [["a", "b"], ["1", "2"]]⟩
      [("a", "1"), ("b", "2"), ("c", "3")]
      ⟨("c", "3"), by decide, by decide⟩).1,
   C1_schema_stability_amended.2.2.2.1 ["a", "b"] [("a", "3")] 1 "b"
      (by decide) (by decide) (by decide)⟩

/-- C2 counterexample: a destination that already contains a header and a
data row before the run begins is truncated by the run's first append
(mode `w`), which also rewrites the header even though the destination
already contained data — the pre-existing row `["1","2"]` is not intact
afterwards. -/
theorem C2_counterexample :
    (["1", "2"] ∈ ([["a", "b"], ["1", "2"]] : List (List String))) ∧
    (save_player_to_csv ⟨false, none, some [["a", "b"], ["1", "2"]]⟩
        [("a", "3"), ("b", "4")]).1.file = some [["a", "b"], ["3", "4"]] ∧
    (["1", "2"] ∉ ([["a", "b"], ["3", "4"]] : List (List String))) := by
  refine ⟨by decide, by decide, by decide⟩

/-- C2 amended: within one run, the first append opens the destination in
write mode — truncating whatever it held — and writes the header followed
by the first row; every later append of the run opens in append mode and
appends exactly one rendered row, leaving all rows written earlier intact;
so the header is written exactly once per run, the decision being whether
this run has already initialized the file (`csv_initialized`), not whether
the destination already contained data before the run began. -/
theorem C2_crash_safety_amended :
    (∀ (f0 : Option (List (List String))) (r : Rec),
        save_player_to_csv ⟨false, none, f0⟩ r =
          (⟨true, some (get_column_order r),
            some [get_column_order r, renderRow (get_column_order r) r]⟩, .ok ())) ∧
    (∀ (st : CsvSinkState) (rec : Rec) (content : List (List String)),
        st.csv_initialized = true → st.file = some content →
        (∀ p ∈ rec, p.1 ∈ effectiveCols st rec) →
        save_player_to_csv st rec =
          (⟨true, some (effectiveCols st rec),
            some (content ++ [renderRow (effectiveCols st rec) rec])⟩, .ok ())) := by
  constructor
  · intro f0 r
    have hcols : effectiveCols ⟨false, none, f0⟩ r = get_column_order r := rfl
    have hw : writerow (get_column_order r) r = .ok (renderRow (get_column_order r) r) :=
      writerow_ok _ _ (fun p hp =>
        (mem_get_column_order r p.1).mpr (List.mem_map.mpr ⟨p, hp, rfl⟩))
    simp [save_player_to_csv, hcols, hw]
  · intro st rec content hinit hfile hsub
    have hw := writerow_ok (effectiveCols st rec) rec hsub
    simp [save_player_to_csv, hw, hinit, hfile]

/-- C2 amended witness: a fresh run's first append against a pre-existing
destination, then a second append within the same run. -/
theorem C2_crash_safety_amended_witness :
    save_player_to_csv ⟨false, none, some [["x"]]⟩ [("a", "1"), ("b", "2")] =
      (⟨true, some ["a", "b"], some [["a", "b"], ["1", "2"]]⟩, .ok ()) ∧
    save_player_to_csv ⟨true, some ["a", "b"], some [["a", "b"], ["1", "2"]]⟩ [("a", "3")] =
      (⟨true, some ["a", "b"], some [["a", "b"], ["1", "2"], ["3", ""]]⟩, .ok ()) := by
  constructor
  · have h := C2_crash_safety_amended.1 (some [["x"]]) [("a", "1"), ("b", "2")]
    rw [h]
    rfl
  · have h := C2_crash_safety_amended.2
      ⟨true, some ["a", "b"], some [["a", "b"], ["1", "2"]]⟩ [("a", "3")]
      [["a", "b"], ["1", "2"]] rfl rfl (by decide)
    rw [h]
    rfl

theorem mem_of_head_eq {α : Type} (l : List α) (x : α) (h : l.head? = some x) :
    x ∈ l := by
  cases l with
  | nil => simp at h
  | cons y ys =>
    rw [List.head?_cons, Option.some.injEq] at h
    rw [← h]
    exact List.mem_cons_self y ys

theorem mem_squashAux (P : Char → Bool) (c : Char) :
    ∀ (l : List Char) (b : Bool) (x : Char), x ∈ squashAux P c b l →
      x = c ∨ (x ∈ l ∧ P x = false) := by
  intro l
  induction l with
  | nil =>
    intro b x hx
    simp [squashAux] at hx
  | cons y ys ih =>
    intro b x hx
    by_cases hy : P y = true
    · rw [squashAux, if_pos hy] at hx
      cases b with
      | true =>
        rw [if_pos rfl] at hx
        rcases ih true x hx with h | ⟨hm, hp⟩
        · exact Or.inl h
        · exact Or.inr ⟨List.mem_cons_of_mem y hm, hp⟩
      | false =>
        rw [if_neg Bool.false_ne_true] at hx
        rcases List.mem_cons.mp hx with rfl | hx
        · exact Or.inl rfl
        · rcases ih true x hx with h | ⟨hm, hp⟩
          · exact Or.inl h
          · exact Or.inr ⟨List.mem_cons_of_mem y hm, hp⟩
    · rw [squashAux, if_neg hy] at hx
      rcases List.mem_cons.mp hx with rfl | hx
      · exact Or.inr ⟨List.mem_cons_self x ys, Bool.not_eq_true _ |>.mp hy⟩
      · rcases ih false x hx with h | ⟨hm, hp⟩
        · exact Or.inl h
        · exact Or.inr ⟨List.mem_cons_of_mem y hm, hp⟩

theorem squashAux_nop (P : Char → Bool) (c : Char) :
    ∀ (l : List Char) (b : Bool), (∀ x ∈ l, P x = false) →
      squashAux P c b l = l := by
  intro l
  induction l with
  | nil => intro b _; rfl
  | cons y ys ih =>
    intro b h
    have hy : P y = false := h y (List.mem_cons_self y ys)
    rw [squashAux, if_neg (by simp [hy]),
      ih false (fun x hx => h x (List.mem_cons_of_mem y hx))]

theorem head_squash_true (P : Char → Bool) (c : Char) :
    ∀ (l : List Char) (y : Char), (squashAux P c true l).head? = some y →
      y ∈ l ∧ P y = false := by
  intro l
  induction l with
  | nil => intro y hy; simp [squashAux] at hy
  | cons z zs ih =>
    intro y hy
    by_cases hz : P z = true
    · rw [squashAux, if_pos hz, if_pos rfl] at hy
      obtain ⟨hm, hp⟩ := ih y hy
      exact ⟨List.mem_cons_of_mem z hm, hp⟩
    · rw [squashAux, if_neg hz, List.head?_cons, Option.some.injEq] at hy
      subst hy
      exact ⟨List.mem_cons_self z zs, Bool.not_eq_true _ |>.mp hz⟩

theorem squashAux_chain (P : Char → Bool) (c : Char) :
    ∀ (l : List Char) (b : Bool), (∀ x ∈ l, P x = false → x ≠ c) →
      List.Chain' (fun a b => ¬(a = c ∧ b = c)) (squashAux P c b l) := by
  intro l
  induction l with
  | nil => intro b _; simp [squashAux]
  | cons y ys ih =>
    intro b h
    have htail : ∀ x ∈ ys, P x = false → x ≠ c :=
      fun x hx => h x (List.mem_cons_of_mem y hx)
    by_cases hy : P y = true
    · rw [squashAux, if_pos hy]
      cases b with
      | true => exact if_pos rfl ▸ ih true htail
      | false =>
        rw [if_neg Bool.false_ne_true, List.chain'_cons']
        refine ⟨?_, ih true htail⟩
        intro z hz
        rw [Option.mem_def] at hz
        obtain ⟨hm, hp⟩ := head_squash_true P c ys z hz
        rintro ⟨_, hzc⟩
        exact htail z hm hp hzc
    · rw [squashAux, if_neg hy, List.chain'_cons']
      refine ⟨?_, ih false htail⟩
      intro z _
      rintro ⟨hyc, _⟩
      exact h y (List.mem_cons_self y ys) (Bool.not_eq_true _ |>.mp hy) hyc

theorem squashAux_map_of_chain (P : Char → Bool) (c : Char) :
    ∀ (l : List Char) (b : Bool),
      List.Chain' (fun x y => P x = false ∨ P y = false) l →
      (b = true → ∀ y, l.head? = some y → P y = false) →
      squashAux P c b l = l.map (fun x => if P x then c else x) := by
  intro l
  induction l with
  | nil => intro b _ _; rfl
  | cons y ys ih =>
    intro b hch hb
    rw [List.chain'_cons'] at hch
    obtain ⟨hhead, htail⟩ := hch
    by_cases hy : P y = true
    · cases b with
      | true =>
        exact absurd (hb rfl y (List.head?_cons)) (by simp [hy])
      | false =>
        rw [squashAux, if_pos hy, if_neg Bool.false_ne_true, List.map_cons, if_pos hy]
        congr 1
        apply ih true htail
        intro _ z hz
        rcases hhead z (Option.mem_def.mpr hz) with h | h
        · exact absurd hy (by simp [h])
        · exact h
    · rw [squashAux, if_neg hy, List.map_cons, if_neg hy]
      congr 1
      exact ih false htail (fun hfalse => absurd hfalse Bool.false_ne_true)

theorem mem_dropWhileP (P : Char → Bool) :
    ∀ (l : List Char) (x : Char), x ∈ l.dropWhile P → x ∈ l := by
  intro l
  induction l with
  | nil => intro x hx; simp at hx
  | cons y ys ih =>
    intro x hx
    rw [List.dropWhile_cons] at hx
    by_cases hy : P y = true
    · rw [if_pos hy] at hx
      exact List.mem_cons_of_mem y (ih x hx)
    · rw [if_neg hy] at hx
      exact hx

theorem head_dropWhile_false (P : Char → Bool) (l : List Char) (x : Char)
    (h : (l.dropWhile P).head? = some x) : P x = false := by
  have hmatch := List.head?_dropWhile_not P l
  rw [h] at hmatch
  exact hmatch

theorem dropWhile_eq_self_of_head (P : Char → Bool) (l : List Char)
    (h : ∀ x, l.head? = some x → P x = false) : l.dropWhile P = l := by
  cases l with
  | nil => rfl
  | cons y ys =>
    rw [List.dropWhile_cons, if_neg (by simp [h y List.head?_cons])]

theorem dropWhile_isSuffix (P : Char → Bool) :
    ∀ (l : List Char), (l.dropWhile P).IsSuffix l := by
  intro l
  induction l with
  | nil => exact List.suffix_refl []
  | cons y ys ih =>
    rw [List.dropWhile_cons]
    by_cases hy : P y = true
    · rw [if_pos hy]
      exact ih.trans (List.suffix_cons y ys)
    · rw [if_neg hy]

theorem getLast_of_suffix {l' l : List Char} (h : l'.IsSuffix l) (hne : l' ≠ []) :
    l'.getLast? = l.getLast? := by
  obtain ⟨t, rfl⟩ := h
  rw [List.getLast?_append_of_ne_nil t hne]

theorem chain'_dropWhile {R : Char → Char → Prop} (P : Char → Bool) :
    ∀ (l : List Char), List.Chain' R l → List.Chain' R (l.dropWhile P) := by
  intro l
  induction l with
  | nil => intro h; exact h
  | cons y ys ih =>
    intro h
    rw [List.dropWhile_cons]
    by_cases hy : P y = true
    · rw [if_pos hy]
      exact ih h.tail
    · rw [if_neg hy]
      exact h

theorem chain'_reverse_of_symm {R : Char → Char → Prop}
    (hsymm : ∀ a b, R a b → R b a) (l : List Char) (h : List.Chain' R l) :
    List.Chain' R l.reverse := by
  rw [List.chain'_reverse]
  exact h.imp (fun a b hab => hsymm a b hab)

theorem chain'_imp_mem {R S : Char → Char → Prop} :
    ∀ (l : List Char), (∀ a b, a ∈ l → b ∈ l → R a b → S a b) →
      List.Chain' R l → List.Chain' S l := by
  intro l
  induction l with
  | nil => intro _ _; simp
  | cons y ys ih =>
    intro h hch
    rw [List.chain'_cons'] at hch ⊢
    obtain ⟨hhead, htail⟩ := hch
    constructor
    · intro z hz
      have hzmem : z ∈ ys := mem_of_head_eq ys z (Option.mem_def.mp hz)
      exact h y z (List.mem_cons_self y ys) (List.mem_cons_of_mem y hzmem) (hhead z hz)
    · exact ih
        (fun a b ha hb => h a b (List.mem_cons_of_mem y ha) (List.mem_cons_of_mem y hb))
        htail

theorem mem_pyStrip (P : Char → Bool) (l : List Char) (x : Char)
    (h : x ∈ pyStrip P l) : x ∈ l := by
  rw [pyStrip, List.mem_reverse] at h
  have h2 := mem_dropWhileP P _ x h
  rw [List.mem_reverse] at h2
  exact mem_dropWhileP P l x h2

theorem chain'_pyStrip {R : Char → Char → Prop}
    (hsymm : ∀ a b, R a b → R b a) (P : Char → Bool) (l : List Char)
    (h : List.Chain' R l) : List.Chain' R (pyStrip P l) := by
  rw [pyStrip]
  exact chain'_reverse_of_symm hsymm _
    (chain'_dropWhile P _ (chain'_reverse_of_symm hsymm _ (chain'_dropWhile P l h)))

theorem pyStrip_eq_self (P : Char → Bool) (l : List Char)
    (hh : ∀ x, l.head? = some x → P x = false)
    (hl : ∀ x, l.getLast? = some x → P x = false) : pyStrip P l = l := by
  rw [pyStrip, dropWhile_eq_self_of_head P l hh,
    dropWhile_eq_self_of_head P l.reverse
      (fun x hx => hl x (by rwa [List.head?_reverse] at hx)),
    List.reverse_reverse]

theorem pyStrip_head (P : Char → Bool) (l : List Char) (x : Char)
    (h : (pyStrip P l).head? = some x) : P x = false := by
  rw [pyStrip, List.head?_reverse] at h
  have hne : List.dropWhile P (List.dropWhile P l).reverse ≠ [] := by
    intro h0
    rw [h0] at h
    simp at h
  rw [getLast_of_suffix (dropWhile_isSuffix P (List.dropWhile P l).reverse) hne,
    List.getLast?_reverse] at h
  exact head_dropWhile_false P l x h

theorem pyStrip_getLast (P : Char → Bool) (l : List Char) (x : Char)
    (h : (pyStrip P l).getLast? = some x) : P x = false := by
  rw [pyStrip, List.getLast?_reverse] at h
  exact head_dropWhile_false P _ x h

theorem map_eq_self (f : Char → Char) :
    ∀ (l : List Char), (∀ x ∈ l, f x = x) → l.map f = l := by
  intro l
  induction l with
  | nil => intro _; rfl
  | cons y ys ih =>
    intro h
    rw [List.map_cons, h y (List.mem_cons_self y ys),
      ih (fun x hx => h x (List.mem_cons_of_mem y hx))]

theorem alnum_not_upper (x : Char) (h : isLowerAlnum x = true) :
    isUpperAlpha x = false := by
  rw [isLowerAlnum] at h
  rw [isUpperAlpha]
  simp only [Bool.or_eq_true, Bool.and_eq_true, decide_eq_true_eq] at h
  simp only [Bool.and_eq_false_iff, decide_eq_false_iff_not, not_le]
  omega

theorem alnum_not_space (x : Char) (h : isLowerAlnum x = true) :
    pySpace x = false := by
  cases hsp : pySpace x
  · rfl
  · exfalso
    rw [pySpace] at hsp
    simp only [Bool.or_eq_true, decide_eq_true_eq] at hsp
    rcases hsp with ((((rfl | rfl) | rfl) | rfl) | rfl) | rfl <;> exact absurd h (by decide)

theorem alnum_not_pctslash (x : Char) (h : isLowerAlnum x = true) :
    isPctSlash x = false := by
  cases hp : isPctSlash x
  · rfl
  · exfalso
    rw [isPctSlash] at hp
    simp only [Bool.or_eq_true, decide_eq_true_eq] at hp
    rcases hp with rfl | rfl <;> exact absurd h (by decide)

theorem alnum_ne_und (x : Char) (h : isLowerAlnum x = true) : x ≠ '_' := by
  rintro rfl
  exact absurd h (by decide)

theorem alnum_not_q2 (x : Char) (h : isLowerAlnum x = true) :
    nonAlnumNonSpace x = false := by
  rw [nonAlnumNonSpace, h]
  rfl

theorem asciiLower_fix (x : Char) (h : isLowerAlnum x = true ∨ x = '_') :
    asciiLower x = x := by
  rcases h with h | rfl
  · simp [asciiLower, alnum_not_upper x h]
  · rfl

/-- Every character of a normalized header is a lowercase letter, a digit,
or an underscore. -/
theorem normalize_header_chars (l : List Char) (x : Char)
    (hx : x ∈ normalize_header l) : isLowerAlnum x = true ∨ x = '_' := by
  simp only [normalize_header, squashRuns] at hx
  have hx5 := mem_pyStrip _ _ _ hx
  rcases mem_squashAux pySpace '_' _ false x hx5 with rfl | ⟨hx4, hsp⟩
  · exact Or.inr rfl
  rcases mem_squashAux nonAlnumNonSpace ' ' _ false x hx4 with rfl | ⟨_, hq⟩
  · exact absurd hsp (by decide)
  · left
    rw [nonAlnumNonSpace, hsp] at hq
    simpa using hq

/-- No two adjacent characters of a normalized header are both
underscores. -/
theorem normalize_header_chain (l : List Char) :
    List.Chain' (fun a b => ¬(a = '_' ∧ b = '_')) (normalize_header l) := by
  simp only [normalize_header, squashRuns]
  apply chain'_pyStrip (fun a b hab => fun hc => hab ⟨hc.2, hc.1⟩)
  apply squashAux_chain
  intro x hx hxsp
  rcases mem_squashAux nonAlnumNonSpace ' ' _ false x hx with rfl | ⟨_, hq⟩
  · exact absurd hxsp (by decide)
  · rw [nonAlnumNonSpace, hxsp] at hq
    exact alnum_ne_und x (by simpa using hq)

/-- The first character of a normalized header is not an underscore. -/
theorem normalize_header_head (l : List Char) (x : Char)
    (h : (normalize_header l).head? = some x) : x ≠ '_' := by
  simp only [normalize_header, squashRuns] at h
  have := pyStrip_head (fun c => c = '_') _ x h
  simpa using this

/-- The last character of a normalized header is not an underscore. -/
theorem normalize_header_getLast (l : List Char) (x : Char)
    (h : (normalize_header l).getLast? = some x) : x ≠ '_' := by
  simp only [normalize_header, squashRuns] at h
  have := pyStrip_getLast (fun c => c = '_') _ x h
  simpa using this

/-- C10: `_normalize_header` is idempotent — applying it to its own output
returns the output unchanged, so every normalized header (lowercase
alphanumeric words joined by single interior underscores) is a fixed point
of the function. -/
theorem C10_normalize_idempotent (l : List Char) :
    normalize_header (normalize_header l) = normalize_header l := by
  have hF1 : ∀ x ∈ normalize_header l, isLowerAlnum x = true ∨ x = '_' :=
    fun x hx => normalize_header_chars l x hx
  have hF2 : List.Chain' (fun a b => ¬(a = '_' ∧ b = '_')) (normalize_header l) :=
    normalize_header_chain l
  have hmem_head : ∀ x, (normalize_header l).head? = some x → x ∈ normalize_header l :=
    fun x hx => mem_of_head_eq _ x hx
  have hmem_last : ∀ x, (normalize_header l).getLast? = some x → x ∈ normalize_header l := by
    intro x hx
    rw [← List.head?_reverse] at hx
    have := mem_of_head_eq _ x hx
    rwa [List.mem_reverse] at this
  have hnospace : ∀ x ∈ normalize_header l, pySpace x = false := by
    intro x hx
    rcases hF1 x hx with h | rfl
    · exact alnum_not_space x h
    · decide
  have hs1 : pyStrip pySpace (normalize_header l) = normalize_header l :=
    pyStrip_eq_self pySpace _
      (fun x hx => hnospace x (hmem_head x hx))
      (fun x hx => hnospace x (hmem_last x hx))
  have hs2 : (normalize_header l).map asciiLower = normalize_header l :=
    map_eq_self asciiLower _ (fun x hx => asciiLower_fix x (hF1 x hx))
  have hs3 : squashRuns isPctSlash ' ' (normalize_header l) = normalize_header l := by
    rw [squashRuns]
    apply squashAux_nop
    intro x hx
    rcases hF1 x hx with h | rfl
    · exact alnum_not_pctslash x h
    · decide
  have hch4 : List.Chain' (fun a b => nonAlnumNonSpace a = false ∨ nonAlnumNonSpace b = false)
      (normalize_header l) := by
    apply chain'_imp_mem (normalize_header l) _ hF2
    intro a b ha hb hab
    by_cases hau : a = '_'
    · right
      subst hau
      rcases hF1 b hb with h | rfl
      · exact alnum_not_q2 b h
      · exact absurd ⟨rfl, rfl⟩ hab
    · left
      rcases hF1 a ha with h | rfl
      · exact alnum_not_q2 a h
      · exact absurd rfl hau
  have hs4 : squashRuns nonAlnumNonSpace ' ' (normalize_header l) =
      (normalize_header l).map (fun x => if nonAlnumNonSpace x then ' ' else x) := by
    rw [squashRuns]
    exact squashAux_map_of_chain nonAlnumNonSpace ' ' _ false hch4
      (fun hfalse => absurd hfalse Bool.false_ne_true)
  have hg1space : ∀ x ∈ normalize_header l,
      pySpace (if nonAlnumNonSpace x then ' ' else x) = true → x = '_' := by
    intro x hx hsp
    rcases hF1 x hx with h | rfl
    · rw [alnum_not_q2 x h] at hsp
      rw [if_neg Bool.false_ne_true] at hsp
      exact absurd hsp (by simp [alnum_not_space x h])
    · rfl
  have hch5 : List.Chain' (fun a b => pySpace a = false ∨ pySpace b = false)
      ((normalize_header l).map (fun x => if nonAlnumNonSpace x then ' ' else x)) := by
    rw [List.chain'_map]
    apply chain'_imp_mem (normalize_header l) _ hF2
    intro a b ha hb hab
    by_cases hau : a = '_'
    · right
      cases hsp : pySpace (if nonAlnumNonSpace b then ' ' else b)
      · rfl
      · exact absurd ⟨hau, hg1space b hb hsp⟩ hab
    · left
      cases hsp : pySpace (if nonAlnumNonSpace a then ' ' else a)
      · rfl
      · exact absurd (hg1space a ha hsp) hau
  have hs5 : squashRuns pySpace '_'
      ((normalize_header l).map (fun x => if nonAlnumNonSpace x then ' ' else x)) =
      ((normalize_header l).map (fun x => if nonAlnumNonSpace x then ' ' else x)).map
        (fun x => if pySpace x then '_' else x) := by
    rw [squashRuns]
    exact squashAux_map_of_chain pySpace '_' _ false hch5
      (fun hfalse => absurd hfalse Bool.false_ne_true)
  have hs45 : ((normalize_header l).map (fun x => if nonAlnumNonSpace x then ' ' else x)).map
      (fun x => if pySpace x then '_' else x) = normalize_header l := by
    rw [List.map_map]
    apply map_eq_self
    intro x hx
    rcases hF1 x hx with h | rfl
    · simp only [Function.comp_apply, alnum_not_q2 x h, if_neg Bool.false_ne_true,
        alnum_not_space x h]
    · rfl
  have hstrip : pyStrip (fun c => c = '_') (normalize_header l) = normalize_header l := by
    apply pyStrip_eq_self
    · intro x hx
      simpa using normalize_header_head l x hx
    · intro x hx
      simpa using normalize_header_getLast l x hx
  calc normalize_header (normalize_header l)
      = pyStrip (fun c => c = '_')
          (squashRuns pySpace '_'
            (squashRuns nonAlnumNonSpace ' '
              (squashRuns isPctSlash ' '
                ((pyStrip pySpace (normalize_header l)).map asciiLower)))) := by
        simp only [normalize_header, squashRuns]
    _ = normalize_header l := by
        rw [hs1, hs2, hs3, hs4, hs5, hs45, hstrip]
